import Mathlib

/-!
# Keyset pagination of the `logs` table

A shallow embedding of `logviewer.go` and of the cursor/page arithmetic of
`server.go`: the SQL text the program builds from a cursor, a sort and a list of
filters, the errors it reports, and the page-number computation.

Go strings are Lean strings, `fmt.Sprintf("%s %s %s", a, b, c)` is
`a ++ " " ++ b ++ " " ++ c`, Go's `int` is a signed 64-bit integer (an `Int`
reduced by `wrapInt64` wherever the code does arithmetic), `uint64` row ids are
natural numbers, and the database handle is a record of the two query functions
the code calls.
-/

namespace LogViewer

/-! ## Data model -/

/-- A `time.Time` value; only its identity matters here, formatting is supplied
by the caller of the functions that print it. -/
structure Time where
  nanos : Int
deriving DecidableEq, Repr

/-- The struct `Log` (logviewer.go:17). -/
structure Log where
  Id : Nat
  Ts : Time
  Type_ : Nat
  Message : String
  CreatedAt : Time
deriving DecidableEq, Repr

/-- The array type `Filter [3]string` (logviewer.go:25); the three components are
`f[0]`, `f[1]` and `f[2]`. -/
structure Filter where
  f0 : String
  f1 : String
  f2 : String
deriving DecidableEq, Repr

/-- The struct `Sort` (logviewer.go:34); `Sort` is a reserved word here. -/
structure SortSpec where
  Field : String
  Direction : String
  Limit : Int
deriving DecidableEq, Repr

/-- The string type `Cursor` (logviewer.go:50). -/
abbrev Cursor := String

/-- The errors the program builds: `fmt.Errorf` values are told apart by their
format string, `noLogs` is the sentinel `ErrNoLogs`. -/
inductive Error where
  | invalidSort
  | queryFailed (cause : String)
  | scanStructFailed (cause : String)
  | scanPositionFailed (cause : String)
  | convertFailed
  | noLogs
  | getLogsFailed (cause : Error)
deriving DecidableEq, Repr

/-! ## Library functions -/

/-- The function `strings.ToLower`, as far as the program observes it: the result is
only compared with `"asc"` and `"desc"`, and no character outside `A`-`Z` has
one of the letters of these words as its lower case. -/
def ToLower (s : String) : String := String.mk (s.data.map Char.toLower)

/-- The function `strconv.FormatUint(n, 10)`. -/
def FormatUint (n : Nat) : String := Nat.repr n

/-- The function `strconv.Itoa`, also the verb `%d` of `fmt.Sprintf`. -/
def Itoa (i : Int) : String :=
  if i < 0 then "-" ++ Nat.repr (-i).toNat else Nat.repr i.toNat

/-- Reduction of an integer to Go's 64-bit `int` (two's complement wrap-around). -/
def wrapInt64 (x : Int) : Int := (x + 2 ^ 63) % 2 ^ 64 - 2 ^ 63

/-- The values of Go's 64-bit `int`. -/
def inInt64 (x : Int) : Prop := -2 ^ 63 ≤ x ∧ x < 2 ^ 63

instance (x : Int) : Decidable (inInt64 x) :=
  inferInstanceAs (Decidable (-2 ^ 63 ≤ x ∧ x < 2 ^ 63))

/-! ## Query fragments (logviewer.go) -/

/-- The method `Filter.Query` (logviewer.go:27). -/
def Filter.Query (f : Filter) : String :=
  if f.f0 = "" ∨ f.f1 = "" ∨ f.f2 = "" then ""
  else f.f0 ++ " " ++ f.f1 ++ " " ++ f.f2

/-- The method `Sort.Query` (logviewer.go:40). -/
def SortSpec.Query (s : SortSpec) : String :=
  if s.Field = "" then " ORDER BY id ASC"
  else
    let Direction :=
      if ¬ (ToLower s.Direction = "asc" ∨ ToLower s.Direction = "desc") then "asc"
      else s.Direction
    " ORDER BY " ++ s.Field ++ " " ++ Direction

/-- The method `Cursor.defaultVal` (logviewer.go:70). -/
def Cursor.defaultVal (_c : Cursor) (sort : SortSpec) : Cursor :=
  if sort.Field = "id" then
    if sort.Direction = "asc" then "0" else ""
  else if sort.Field = "ts" then
    if sort.Direction = "asc" then "-infinity" else "infinity"
  else ""

/-- The method `Cursor.Query` (logviewer.go:52). -/
def Cursor.Query (c : Cursor) (sort : SortSpec) : String :=
  let cursor := if c = "" then Cursor.defaultVal c sort else c
  let op := if sort.Direction = "desc" then "<" else ">"
  let cursor := if sort.Field = "ts" then "'" ++ cursor ++ "'" else cursor
  sort.Field ++ " " ++ op ++ " " ++ cursor

/-! ## The database handle -/

/-- What `row.Scan(&v)` into an `interface{}` or an `int` can yield. -/
inductive Scanned where
  | noRows
  | failed (cause : String)
  | int64 (v : Int)
  | time (t : Time)
  | other
deriving DecidableEq, Repr

/-- The two operations of `*sqlx.DB` the program uses: `Queryx` gives an error
or the rows, each of which `StructScan` decodes or rejects; `QueryRow` followed
by `Scan` gives one scanned value. -/
structure DB where
  Queryx : String → Except String (List (Except String Log))
  QueryRow : String → Scanned

/-! ## GetLogs (logviewer.go:88) -/

/-- The sort check shared by `GetLogs` and `GetCursor` (logviewer.go:89, 169). -/
def invalidSort (sort : SortSpec) : Prop :=
  sort.Field = "" ∨ (sort.Direction ≠ "asc" ∧ sort.Direction ≠ "desc")

instance (sort : SortSpec) : Decidable (invalidSort sort) :=
  inferInstanceAs (Decidable (sort.Field = "" ∨ (sort.Direction ≠ "asc" ∧ sort.Direction ≠ "desc")))

/-- The query text `GetLogs` builds (logviewer.go:93-103). -/
def GetLogsQuery (cursor : Cursor) (sort : SortSpec) (filters : List Filter) : String :=
  let query := "SELECT * FROM logs WHERE " ++ Cursor.Query cursor sort
  let query := filters.foldl (fun q f => q ++ (" AND " ++ f.Query)) query
  let query := query ++ sort.Query
  let query := if sort.Limit ≠ 0 then query ++ (" LIMIT " ++ Itoa sort.Limit) else query
  if sort.Direction = "desc" then "SELECT * FROM (" ++ query ++ ") as x ORDER BY id ASC"
  else query

/-- The loop over `rows.Next()` (logviewer.go:110-119): rows are appended until
one fails to decode, which ends the call with the rows read so far. -/
def scanRows : List (Except String Log) → List Log → List Log × Option Error
  | [], logs => (logs, none)
  | .error e :: _, logs => (logs, some (.scanStructFailed e))
  | .ok log :: rest, logs => scanRows rest (logs ++ [log])

/-- Execution of a query text by `GetLogs` (logviewer.go:105-119). -/
def runLogsQuery (db : DB) (query : String) : List Log × Option Error :=
  match db.Queryx query with
  | .error e => ([], some (.queryFailed e))
  | .ok rows => scanRows rows []

/-- The function `GetLogs` (logviewer.go:88): the returned pair is `(logs, err)`. -/
def GetLogs (db : DB) (cursor : Cursor) (sort : SortSpec) (filters : List Filter) :
    List Log × Option Error :=
  if invalidSort sort then ([], some .invalidSort)
  else runLogsQuery db (GetLogsQuery cursor sort filters)

/-! ## GetCursor (logviewer.go:167) -/

/-- The offset `GetCursor` computes (logviewer.go:172-175), in Go's `int`
arithmetic. -/
def GetCursorOffset (page : Int) (sort : SortSpec) : Int :=
  let offset := wrapInt64 (wrapInt64 (page - 1) * sort.Limit)
  if sort.Direction = "asc" then wrapInt64 (offset - 1) else offset

/-- The loop over the filters in `GetCursor` (logviewer.go:178-184); `i` is the
index of the first filter of the list. -/
def cursorFilters : Nat → List Filter → String → String
  | _, [], query => query
  | i, f :: rest, query =>
    cursorFilters (i + 1) rest
      (if i = 0 then query ++ (" WHERE " ++ f.Query) else query ++ (" AND " ++ f.Query))

/-- The query text `GetCursor` builds (logviewer.go:172-185). -/
def GetCursorQuery (page : Int) (sort : SortSpec) (filters : List Filter) : String :=
  let offset := GetCursorOffset page sort
  let query := "SELECT " ++ sort.Field ++ " FROM logs"
  let query := cursorFilters 0 filters query
  query ++ (" OFFSET " ++ Itoa offset ++ " LIMIT 1")

/-- The layout constant `time.RFC3339Nano`. -/
def RFC3339Nano : String := "2006-01-02T15:04:05.999999999Z07:00"

/-- Conversion of the scanned value to a cursor (logviewer.go:186-201);
`format layout t` stands for `t.Format(layout)`. -/
def cursorOfScanned (format : String → Time → String) : Scanned → Cursor × Option Error
  | .noRows => ("", some .noLogs)
  | .failed e => ("", some (.scanPositionFailed e))
  | .int64 v => (Itoa v, none)
  | .time t => (format RFC3339Nano t, none)
  | .other => ("", some .convertFailed)

/-- The function `GetCursor` (logviewer.go:167): the returned pair is `(cursor, err)`. -/
def GetCursor (format : String → Time → String) (db : DB) (page : Int) (sort : SortSpec)
    (filters : List Filter) : Cursor × Option Error :=
  if invalidSort sort then ("", some .invalidSort)
  else cursorOfScanned format (db.QueryRow (GetCursorQuery page sort filters))

/-! ## getLogList (server.go:201) -/

/-- The struct `log` of server.go:21, a row with its printed timestamp. -/
structure LogView where
  Log : Log
  TsPretty : String
deriving DecidableEq, Repr

/-- The struct `tmplData` (server.go:26). -/
structure tmplData where
  FromCursor : String
  ToCursor : String
  Logs : List LogView
deriving DecidableEq, Repr

/-- The function `getLogList` (server.go:201): the returned pair is `(data, err)`;
`format layout t` stands for `t.Format(layout)`. -/
def getLogList (format : String → Time → String) (db : DB) (cursor : Cursor)
    (sort : SortSpec) (filters : List Filter) : tmplData × Option Error :=
  let data : tmplData := ⟨"", "", []⟩
  match GetLogs db cursor sort filters with
  | (_, some err) => (data, some (.getLogsFailed err))
  | (logs, none) =>
    match logs with
    | [] => (data, some .noLogs)
    | first :: rest =>
      let last := (first :: rest).getLast (List.cons_ne_nil first rest)
      let data : tmplData :=
        if sort.Field = "id" then
          { data with FromCursor := FormatUint first.Id, ToCursor := FormatUint last.Id }
        else if sort.Field = "ts" then
          { data with FromCursor := format RFC3339Nano first.Ts,
                      ToCursor := format RFC3339Nano last.Ts }
        else data
      let data := (first :: rest).foldl
        (fun (d : tmplData) l =>
          { d with Logs := d.Logs ++ [⟨l, format "2006-01-02 15:04:05.000" l.Ts⟩] })
        data
      (data, none)

/-! ## GetCursorPosition (logviewer.go:143) -/

/-- The query text `GetCursorPosition` builds (logviewer.go:145-156). -/
def GetCursorPositionQuery (cursor : Cursor) (sort : SortSpec) : String :=
  let cursor := if cursor = "" then Cursor.defaultVal cursor sort else cursor
  let cursor := if sort.Field = "ts" then "'" ++ cursor ++ "'" else cursor
  "SELECT count(*) FROM (SELECT * FROM logs WHERE " ++ sort.Field ++ " < " ++ cursor ++ " "
    ++ sort.Query ++ ") as x"

/-- The function `GetCursorPosition` (logviewer.go:143): the returned pair is
`(position, err)`; the count is scanned into an `int`. -/
def GetCursorPosition (db : DB) (cursor : Cursor) (sort : SortSpec) : Int × Option Error :=
  match db.QueryRow (GetCursorPositionQuery cursor sort) with
  | .noRows => (0, some .noLogs)
  | .failed e => (0, some (.scanPositionFailed e))
  | .int64 v => (v, none)
  | .time _ => (0, some (.scanPositionFailed "unsupported Scan"))
  | .other => (0, some (.scanPositionFailed "unsupported Scan"))

/-! ## pageNumberHandler (server.go:186-189)

The handler computes `int(math.Ceil(float64(curPos) / float64(Limit)))`. The
`float64` values that occur are described by the numbers they denote: the
conversion of an integer gives an integer, the quotient of two of them a
binary fraction. Quotients of non-zero 64-bit integers lie between `2 ^ (-64)`
and `2 ^ 64`, far inside the normal range of the format, so rounding is to 53
significant bits, nearest value first and ties to the even significand. -/

/-- Auxiliary recursion of `log2Floor`; `fuel` bounds the number of halvings. -/
def log2Aux : Nat → Nat → Nat
  | 0, _ => 0
  | fuel + 1, n => if 2 ≤ n then log2Aux fuel (n / 2) + 1 else 0

/-- The position of the leading bit of `n`: the `e` with `2 ^ e ≤ n < 2 ^ (e + 1)`,
and 0 for `n = 0`. -/
def log2Floor (n : Nat) : Nat := log2Aux n n

/-- The integer nearest to `n / d`, ties going to the even one. -/
def roundHalfEven (n d : Nat) : Nat :=
  let q := n / d
  let r := n % d
  if 2 * r < d then q else if d < 2 * r then q + 1 else if q % 2 = 0 then q else q + 1

/-- The number `float64(n)` denotes, for a natural number `n`: numbers below
`2 ^ 53` are kept, larger ones are rounded to 53 significant bits. -/
def float64OfNat (n : Nat) : Nat :=
  if n < 2 ^ 53 then n
  else
    let e := log2Floor n - 52
    roundHalfEven n (2 ^ e) * 2 ^ e

/-- A non-negative binary fraction `mant * 2 ^ exp`. -/
structure Dyadic where
  mant : Nat
  exp : Int
deriving DecidableEq, Repr

/-- The number the `float64` quotient `a / b` denotes, for numbers `a` and
`b > 0` denoted by `float64` values: `a / b` rounded to 53 significant bits. The
exponent `lg` is the integer with `2 ^ lg ≤ a / b < 2 ^ (lg + 1)`. -/
def float64Div (a b : Nat) : Dyadic :=
  if a = 0 then ⟨0, 0⟩
  else
    let la := log2Floor a
    let lb := log2Floor b
    let lg : Int := if b * 2 ^ la ≤ a * 2 ^ lb then (la : Int) - lb else (la : Int) - lb - 1
    let e := lg - 52
    ⟨roundHalfEven (a * 2 ^ (-e).toNat) (b * 2 ^ e.toNat), e⟩

/-- The function `math.Ceil` on a non-negative binary fraction. -/
def Dyadic.ceil (x : Dyadic) : Nat :=
  (x.mant * 2 ^ x.exp.toNat + 2 ^ (-x.exp).toNat - 1) / 2 ^ (-x.exp).toNat

/-- The function `math.Floor` on a non-negative binary fraction. -/
def Dyadic.floor (x : Dyadic) : Nat :=
  (x.mant * 2 ^ x.exp.toNat) / 2 ^ (-x.exp).toNat

/-- The page number of server.go:186-189 for the position `curPos`:
`int(math.Ceil(float64(curPos) / float64(Limit)))`, plus one for "asc". The
quotient of opposite signs is the negated quotient of the magnitudes, whose
ceiling is the negated floor. There is no result where Go leaves the conversion
to `int` to the implementation: for a zero limit (the quotient is an infinity
or not a number) and for a ceiling outside the 64-bit range. -/
def pageNumber (curPos : Int) (sort : SortSpec) : Option Int :=
  if sort.Limit = 0 then none
  else
    let q := float64Div (float64OfNat curPos.natAbs) (float64OfNat sort.Limit.natAbs)
    let page : Int :=
      if decide (curPos < 0) = decide (sort.Limit < 0) then (q.ceil : Int) else -(q.floor : Int)
    if inInt64 page then
      some (if sort.Direction = "asc" then wrapInt64 (page + 1) else page)
    else none

/-! ## The store of the round trip

The table `logs` holding the ids `1, ..., n`, which the store returns in
increasing order, and the two queries of `GetCursor` and `GetCursorPosition`
evaluated on it. -/

/-- The ids of a table of `n` rows, in the order the store returns them. -/
def tableIds (n : Nat) : List Nat := List.range' 1 n

/-- The id selected by `SELECT id FROM logs OFFSET offset LIMIT 1`: the row after
`offset` rows; there is none past the end of the table, and a negative offset
is rejected by the store. -/
def rowAtOffset (ids : List Nat) (offset : Int) : Option Nat :=
  if offset < 0 then none else ids.get? offset.toNat

/-- The count the query of `GetCursorPosition` denotes for the sort field "id" and
the cursor of a row: the number of rows whose id is below the cursor. -/
def cursorPosition (ids : List Nat) (cursor : Nat) : Nat :=
  (ids.filter fun id => id < cursor).length

/-- The page number reported for the cursor of page `page`: the offset of
`GetCursor`, the id of the row found there, its position, and the page number
`pageNumberHandler` computes from it. -/
def pageOfCursorForPage (n : Nat) (page : Int) (sort : SortSpec) : Option Int :=
  match rowAtOffset (tableIds n) (GetCursorOffset page sort) with
  | none => none
  | some cursor => pageNumber (cursorPosition (tableIds n) cursor) sort

/-! ## Theorems -/

/-- Claim C1. For a direction "asc" or "desc", `Cursor.Query` is the field, the
operator (">" ascending, "<" descending) and the boundary, separated by single
blanks; the boundary is the cursor when it is non-empty, else "0" for (id, asc),
"-infinity" for (ts, asc), "infinity" for (ts, desc); it is wrapped in single
quotes exactly when the field is "ts". -/
theorem cursor_query_format (c : Cursor) (s : SortSpec)
    (hd : s.Direction = "asc" ∨ s.Direction = "desc") :
    ∃ boundary : String,
      Cursor.Query c s
        = s.Field ++ " " ++ (if s.Direction = "asc" then ">" else "<") ++ " "
            ++ (if s.Field = "ts" then "'" ++ boundary ++ "'" else boundary)
      ∧ (c ≠ "" → boundary = c)
      ∧ (c = "" → s.Field = "id" → s.Direction = "asc" → boundary = "0")
      ∧ (c = "" → s.Field = "ts" → s.Direction = "asc" → boundary = "-infinity")
      ∧ (c = "" → s.Field = "ts" → s.Direction = "desc" → boundary = "infinity") := by
  refine ⟨if c = "" then Cursor.defaultVal c s else c, ?_, ?_, ?_, ?_, ?_⟩
  · rcases hd with h | h <;> simp [Cursor.Query, h]
  · intro hc; simp [hc]
  · intro hc hf hdir; simp [hc, Cursor.defaultVal, hf, hdir]
  · intro hc hf hdir; simp [hc, Cursor.defaultVal, hf, hdir]
  · intro hc hf hdir; simp [hc, Cursor.defaultVal, hf, hdir]

/-- Claim C1, witness: the empty cursor under a descending sort by "ts" gives the
quoted default boundary. -/
theorem cursor_query_format_witness :
    Cursor.Query "" ⟨"ts", "desc", 100⟩ = "ts < 'infinity'" := by
  obtain ⟨b, hq, -, -, -, hb⟩ := cursor_query_format "" ⟨"ts", "desc", 100⟩ (Or.inr rfl)
  rw [hq, hb rfl rfl rfl]
  decide

theorem join_acc (l : List String) (acc : String) :
    l.foldl (fun r s => r ++ s) acc = acc ++ String.join l := by
  induction l generalizing acc with
  | nil => simp [String.join]
  | cons x xs ih =>
    simp only [List.foldl_cons, String.join]
    rw [ih, ih ("" ++ x)]
    simp [String.append_assoc]

theorem join_cons (x : String) (l : List String) :
    String.join (x :: l) = x ++ String.join l := by
  simp only [String.join, List.foldl_cons]
  rw [join_acc]; simp [String.join]

theorem foldl_filters (filters : List Filter) (acc : String) :
    filters.foldl (fun q f => q ++ (" AND " ++ f.Query)) acc
      = acc ++ String.join (filters.map fun f => " AND " ++ f.Query) := by
  induction filters generalizing acc with
  | nil => simp [String.join]
  | cons f fs ih =>
    simp only [List.foldl_cons, List.map_cons]
    rw [ih, join_cons, String.append_assoc]

theorem filter_query_complete (f : Filter) (h : f.f0 ≠ "" ∧ f.f1 ≠ "" ∧ f.f2 ≠ "") :
    f.Query = f.f0 ++ " " ++ f.f1 ++ " " ++ f.f2 := by
  simp [Filter.Query, h.1, h.2.1, h.2.2]

/-- Claim C2. For a valid sort and filters whose three parts are all non-empty,
with Q the select over `logs` with the cursor predicate, one " AND "-prefixed
predicate per filter in list order, the order clause and the limit (when it is
not zero), the text `GetLogs` sends to the store is Q for "asc" and Q wrapped as
a subquery re-sorted by "ORDER BY id ASC" for "desc". -/
theorem getLogs_descending_inversion (db : DB) (cursor : Cursor) (sort : SortSpec)
    (filters : List Filter) (hf : sort.Field ≠ "")
    (hd : sort.Direction = "asc" ∨ sort.Direction = "desc")
    (hfs : ∀ f ∈ filters, f.f0 ≠ "" ∧ f.f1 ≠ "" ∧ f.f2 ≠ "") :
    let Q := "SELECT * FROM logs WHERE " ++ Cursor.Query cursor sort
      ++ String.join (filters.map fun f => " AND " ++ (f.f0 ++ " " ++ f.f1 ++ " " ++ f.f2))
      ++ sort.Query ++ (if sort.Limit ≠ 0 then " LIMIT " ++ Itoa sort.Limit else "")
    let executed :=
      if sort.Direction = "asc" then Q else "SELECT * FROM (" ++ Q ++ ") as x ORDER BY id ASC"
    GetLogsQuery cursor sort filters = executed
      ∧ GetLogs db cursor sort filters = runLogsQuery db executed := by
  intro Q executed
  have hmap : (filters.map fun f => " AND " ++ f.Query)
      = filters.map fun f => " AND " ++ (f.f0 ++ " " ++ f.f1 ++ " " ++ f.f2) := by
    apply List.map_congr_left
    intro f hmem
    rw [filter_query_complete f (hfs f hmem)]
  have hq : GetLogsQuery cursor sort filters = executed := by
    simp only [GetLogsQuery, foldl_filters, hmap, executed, Q]
    rcases hd with h | h
    · by_cases hl : sort.Limit = 0 <;> simp [h, hl]
    · by_cases hl : sort.Limit = 0 <;> simp [h, hl]
  refine ⟨hq, ?_⟩
  have hv : ¬ invalidSort sort := by
    unfold invalidSort
    rcases hd with h | h <;> simp [hf, h]
  simp only [GetLogs, if_neg hv, hq]

/-- Claim C2, witness: a descending page below cursor 150 with one filter. -/
theorem getLogs_descending_inversion_witness :
    GetLogsQuery "150" ⟨"id", "desc", 100⟩ [⟨"type", "=", "3"⟩]
      = "SELECT * FROM (SELECT * FROM logs WHERE id < 150 AND type = 3 ORDER BY id desc LIMIT 100) as x ORDER BY id ASC" := by
  have h := (getLogs_descending_inversion ⟨fun _ => .ok [], fun _ => .noRows⟩ "150"
    ⟨"id", "desc", 100⟩ [⟨"type", "=", "3"⟩] (by decide) (by decide) (by decide)).1
  rw [h]
  decide

theorem scanRows_err_ne (rows : List (Except String Log)) (acc : List Log) :
    (scanRows rows acc).2 ≠ some Error.invalidSort := by
  induction rows generalizing acc with
  | nil => simp [scanRows]
  | cons r rs ih =>
    cases r with
    | error e => simp [scanRows]
    | ok l => simpa [scanRows] using ih (acc ++ [l])

theorem runLogsQuery_err_ne (db : DB) (q : String) :
    (runLogsQuery db q).2 ≠ some Error.invalidSort := by
  unfold runLogsQuery
  cases h : db.Queryx q with
  | error e => simp
  | ok rows => simpa using scanRows_err_ne rows []

/-- Claim C3. The error of `GetLogs` is the invalid-sort error if and only if the
sort field is empty or the direction is neither "asc" nor "desc"; in that case
the call returns no rows and the same result whatever the store is, so no query
reaches it. -/
theorem getLogs_invalid_sort_iff (db : DB) (cursor : Cursor) (sort : SortSpec)
    (filters : List Filter) :
    ((GetLogs db cursor sort filters).2 = some Error.invalidSort
        ↔ (sort.Field = "" ∨ ¬ (sort.Direction = "asc" ∨ sort.Direction = "desc")))
    ∧ ((sort.Field = "" ∨ ¬ (sort.Direction = "asc" ∨ sort.Direction = "desc"))
        → ∀ db2 : DB, GetLogs db2 cursor sort filters = ([], some Error.invalidSort)) := by
  have hiff : invalidSort sort
      ↔ (sort.Field = "" ∨ ¬ (sort.Direction = "asc" ∨ sort.Direction = "desc")) := by
    unfold invalidSort
    constructor
    · rintro (h | ⟨h1, h2⟩)
      · exact Or.inl h
      · exact Or.inr (fun h => h.elim h1 h2)
    · rintro (h | h)
      · exact Or.inl h
      · exact Or.inr ⟨fun h1 => h (Or.inl h1), fun h2 => h (Or.inr h2)⟩
  refine ⟨?_, ?_⟩
  · rw [← hiff]
    constructor
    · intro h
      by_contra hv
      simp only [GetLogs, if_neg hv] at h
      exact runLogsQuery_err_ne db _ h
    · intro hv
      simp [GetLogs, hv]
  · intro h db2
    simp [GetLogs, hiff.mpr h]

/-- Claim C6. `Sort.Query` is " ORDER BY id ASC" for an empty field, whatever the
direction and the limit; otherwise it is " ORDER BY ", the field, a blank and
the direction, where the direction is kept as written when its lower case is
"asc" or "desc" and is "asc" otherwise; the limit never changes the result. -/
theorem sort_query_clause (s : SortSpec) :
    (s.Field = "" → s.Query = " ORDER BY id ASC")
    ∧ (s.Field ≠ "" → (ToLower s.Direction = "asc" ∨ ToLower s.Direction = "desc")
        → s.Query = " ORDER BY " ++ s.Field ++ " " ++ s.Direction)
    ∧ (s.Field ≠ "" → ¬ (ToLower s.Direction = "asc" ∨ ToLower s.Direction = "desc")
        → s.Query = " ORDER BY " ++ s.Field ++ " " ++ "asc")
    ∧ (∀ limit : Int, SortSpec.Query { s with Limit := limit } = s.Query) := by
  refine ⟨?_, ?_, ?_, ?_⟩
  · intro h; simp [SortSpec.Query, h]
  · intro h hd; simp [SortSpec.Query, h, hd]
  · intro h hd; simp only [SortSpec.Query, if_neg h, if_pos hd]
  · intro limit; rfl

/-- The lower-casing and the order clause at a few directions: an upper-case
direction is kept as written, an unknown one becomes "asc". -/
theorem sort_query_examples :
    ToLower "DESC" = "desc" ∧ ToLower "Asc" = "asc"
    ∧ SortSpec.Query ⟨"ts", "DESC", 5⟩ = " ORDER BY ts DESC"
    ∧ SortSpec.Query ⟨"ts", "down", 5⟩ = " ORDER BY ts asc"
    ∧ SortSpec.Query ⟨"", "desc", 5⟩ = " ORDER BY id ASC" := by
  decide

theorem cursorFilters_succ (i : Nat) (filters : List Filter) (acc : String) :
    cursorFilters (i + 1) filters acc
      = acc ++ String.join (filters.map fun f => " AND " ++ f.Query) := by
  induction filters generalizing i acc with
  | nil => simp [cursorFilters, String.join]
  | cons f fs ih =>
    simp only [cursorFilters, List.map_cons]
    rw [if_neg (Nat.succ_ne_zero i), ih, join_cons, String.append_assoc]

theorem wrapInt64_of_inInt64 (x : Int) (h : inInt64 x) : wrapInt64 x = x := by
  unfold inInt64 at h
  unfold wrapInt64
  omega

/-- Claim C7, amended. When `page - 1`, `(page - 1) * Limit` and, for "asc", that
product less one all fit Go's 64-bit `int`, the text `GetCursor` sends to the
store for a valid sort is the select of the sort field from `logs`, the filters
(" WHERE " before the first, " AND " before each later one), " OFFSET " with the
decimal offset `(page - 1) * Limit` ("desc") or `(page - 1) * Limit - 1`
("asc"), and " LIMIT 1"; no order clause is added. -/
theorem getCursor_query (format : String → Time → String) (db : DB) (page : Int)
    (sort : SortSpec) (filters : List Filter) (hf : sort.Field ≠ "")
    (hd : sort.Direction = "asc" ∨ sort.Direction = "desc")
    (hp : inInt64 (page - 1)) (hm : inInt64 ((page - 1) * sort.Limit))
    (ha : sort.Direction = "asc" → inInt64 ((page - 1) * sort.Limit - 1)) :
    let offset : Int :=
      if sort.Direction = "asc" then (page - 1) * sort.Limit - 1 else (page - 1) * sort.Limit
    let W : String := match filters with
      | [] => ""
      | f0 :: rest => " WHERE " ++ f0.Query ++ String.join (rest.map fun f => " AND " ++ f.Query)
    let query := "SELECT " ++ sort.Field ++ " FROM logs" ++ W
      ++ " OFFSET " ++ Itoa offset ++ " LIMIT 1"
    GetCursorQuery page sort filters = query
      ∧ GetCursor format db page sort filters = cursorOfScanned format (db.QueryRow query) := by
  intro offset W query
  have hoff : GetCursorOffset page sort = offset := by
    simp only [GetCursorOffset, offset]
    rw [wrapInt64_of_inInt64 _ hp, wrapInt64_of_inInt64 _ hm]
    by_cases h : sort.Direction = "asc"
    · rw [if_pos h, if_pos h, wrapInt64_of_inInt64 _ (ha h)]
    · rw [if_neg h, if_neg h]
  have hW : cursorFilters 0 filters ("SELECT " ++ sort.Field ++ " FROM logs")
      = "SELECT " ++ sort.Field ++ " FROM logs" ++ W := by
    cases filters with
    | nil => simp [cursorFilters, W]
    | cons f0 rest =>
      simp only [cursorFilters, W, if_pos, cursorFilters_succ]
      simp [String.append_assoc]
  have hq : GetCursorQuery page sort filters = query := by
    simp only [GetCursorQuery, hoff, hW, query]
    simp [String.append_assoc]
  refine ⟨hq, ?_⟩
  have hv : ¬ invalidSort sort := by
    unfold invalidSort
    rcases hd with h | h <;> simp [hf, h]
  simp only [GetCursor, if_neg hv, hq]

/-- Claim C7, witness: page 3 of an ascending listing by id with limit 100 and one
filter reads the row at offset 199. -/
theorem getCursor_query_witness :
    GetCursorQuery 3 ⟨"id", "asc", 100⟩ [⟨"type", "=", "3"⟩]
      = "SELECT id FROM logs WHERE type = 3 OFFSET 199 LIMIT 1" := by
  have h := (getCursor_query (fun _ _ => "") ⟨fun _ => .ok [], fun _ => .noRows⟩ 3
    ⟨"id", "asc", 100⟩ [⟨"type", "=", "3"⟩] (by decide) (by decide) (by decide) (by decide)
    (by decide)).1
  rw [h]
  decide

/-- Claim C7, counterexample: for page 2^62 + 1 and limit 4, both values of Go's
`int`, the product `(page - 1) * Limit` is 2^64 and wraps to 0, so the query
asks for offset 0 and not for the decimal of the exact product. -/
theorem getCursor_query_overflow :
    inInt64 (2 ^ 62 + 1) ∧ inInt64 4
    ∧ GetCursorQuery (2 ^ 62 + 1) ⟨"id", "desc", 4⟩ [] = "SELECT id FROM logs OFFSET 0 LIMIT 1"
    ∧ GetCursorQuery (2 ^ 62 + 1) ⟨"id", "desc", 4⟩ []
        ≠ "SELECT id FROM logs" ++ "" ++ " OFFSET " ++ Itoa ((2 ^ 62 + 1 - 1) * 4) ++ " LIMIT 1" := by
  decide

/-- Claim C4, amended. For a valid sort, `GetLogs` skips no filter: between the
cursor predicate and the order clause the query has " AND " and the predicate
of every filter in list order, the predicate of an incomplete filter being
empty, so that such a filter contributes " AND " followed by nothing; when no
filter of the list is incomplete, the query is the one built for the list with
the incomplete filters removed. -/
theorem getLogs_filters_not_skipped (db : DB) (cursor : Cursor) (sort : SortSpec)
    (filters : List Filter) (hf : sort.Field ≠ "")
    (hd : sort.Direction = "asc" ∨ sort.Direction = "desc") :
    let Q := "SELECT * FROM logs WHERE " ++ Cursor.Query cursor sort
      ++ String.join (filters.map fun f => " AND "
          ++ (if f.f0 = "" ∨ f.f1 = "" ∨ f.f2 = "" then ""
              else f.f0 ++ " " ++ f.f1 ++ " " ++ f.f2))
      ++ sort.Query ++ (if sort.Limit ≠ 0 then " LIMIT " ++ Itoa sort.Limit else "")
    let executed :=
      if sort.Direction = "asc" then Q else "SELECT * FROM (" ++ Q ++ ") as x ORDER BY id ASC"
    GetLogsQuery cursor sort filters = executed
      ∧ GetLogs db cursor sort filters = runLogsQuery db executed
      ∧ ((∀ f ∈ filters, ¬ (f.f0 = "" ∨ f.f1 = "" ∨ f.f2 = "")) →
          GetLogsQuery cursor sort filters
            = GetLogsQuery cursor sort
                (filters.filter fun f => decide (¬ (f.f0 = "" ∨ f.f1 = "" ∨ f.f2 = "")))) := by
  intro Q executed
  have hq : GetLogsQuery cursor sort filters = executed := by
    simp only [GetLogsQuery, foldl_filters]
    simp only [Filter.Query, executed, Q]
    rcases hd with h | h
    · by_cases hl : sort.Limit = 0 <;> simp [h, hl]
    · by_cases hl : sort.Limit = 0 <;> simp [h, hl]
  have hv : ¬ invalidSort sort := by
    unfold invalidSort
    rcases hd with h | h <;> simp [hf, h]
  refine ⟨hq, ?_, ?_⟩
  · simp only [GetLogs, if_neg hv, hq]
  · intro hall
    have hfilter : (filters.filter fun f => decide (¬ (f.f0 = "" ∨ f.f1 = "" ∨ f.f2 = "")))
        = filters := by
      rw [List.filter_eq_self]
      intro f hmem
      exact decide_eq_true (hall f hmem)
    rw [hfilter]

/-- Claim C4, witness: a complete filter followed by one with an empty value. -/
theorem getLogs_filters_not_skipped_witness :
    GetLogsQuery "" ⟨"id", "asc", 100⟩ [⟨"type", "=", "3"⟩, ⟨"type", "=", ""⟩]
      = "SELECT * FROM logs WHERE id > 0 AND type = 3 AND  ORDER BY id asc LIMIT 100" := by
  have h := (getLogs_filters_not_skipped ⟨fun _ => .ok [], fun _ => .noRows⟩ ""
    ⟨"id", "asc", 100⟩ [⟨"type", "=", "3"⟩, ⟨"type", "=", ""⟩] (by decide) (by decide)).1
  rw [h]
  decide

/-- Claim C4, counterexample: a filter with an empty value, whose predicate is the
empty string, still appends " AND " (followed by nothing) to the query, which
therefore differs from the query built for the list without that filter. -/
theorem getLogs_incomplete_filter_kept :
    Filter.Query ⟨"type", "=", ""⟩ = ""
    ∧ GetLogsQuery "" ⟨"id", "asc", 100⟩ [⟨"type", "=", ""⟩]
        = "SELECT * FROM logs WHERE id > 0 AND  ORDER BY id asc LIMIT 100"
    ∧ GetLogsQuery "" ⟨"id", "asc", 100⟩ []
        = "SELECT * FROM logs WHERE id > 0 ORDER BY id asc LIMIT 100"
    ∧ GetLogsQuery "" ⟨"id", "asc", 100⟩ [⟨"type", "=", ""⟩]
        ≠ GetLogsQuery "" ⟨"id", "asc", 100⟩ [] := by
  decide

/-- Claim C5, the code at the failing input: for the empty cursor and a descending
sort by id the default boundary is empty and the query compares `id` with
nothing. -/
theorem getLogs_empty_cursor_id_desc :
    Cursor.defaultVal "" ⟨"id", "desc", 100⟩ = ""
    ∧ Cursor.Query "" ⟨"id", "desc", 100⟩ = "id < "
    ∧ GetLogsQuery "" ⟨"id", "desc", 100⟩ []
        = "SELECT * FROM (SELECT * FROM logs WHERE id <  ORDER BY id desc LIMIT 100) as x ORDER BY id ASC" := by
  decide

theorem foldl_logs (format : String → Time → String) (rows : List Log) (d : tmplData) :
    rows.foldl
        (fun (d : tmplData) l =>
          { d with Logs := d.Logs ++ [⟨l, format "2006-01-02 15:04:05.000" l.Ts⟩] }) d
      = { d with Logs := d.Logs
            ++ rows.map fun l => ⟨l, format "2006-01-02 15:04:05.000" l.Ts⟩ } := by
  induction rows generalizing d with
  | nil => simp
  | cons r rs ih => simp [ih]

/-- Claim C9. When `GetLogs` returns rows without an error: for no rows,
`getLogList` returns the not-found error with empty cursors and no logs; for at
least one row and sort field "id", it succeeds, the cursors are the decimal ids
of the first and the last row, and the logs are the rows in the same order and
number. -/
theorem getLogList_result (format : String → Time → String) (db : DB) (cursor : Cursor)
    (sort : SortSpec) (filters : List Filter) (rows : List Log)
    (h : GetLogs db cursor sort filters = (rows, none)) :
    (rows = [] →
        getLogList format db cursor sort filters = (⟨"", "", []⟩, some Error.noLogs))
    ∧ (∀ hne : rows ≠ [], sort.Field = "id" →
        (getLogList format db cursor sort filters).2 = none
        ∧ (getLogList format db cursor sort filters).1.FromCursor
            = FormatUint (rows.head hne).Id
        ∧ (getLogList format db cursor sort filters).1.ToCursor
            = FormatUint (rows.getLast hne).Id
        ∧ (getLogList format db cursor sort filters).1.Logs.map LogView.Log = rows
        ∧ (getLogList format db cursor sort filters).1.Logs.length = rows.length) := by
  refine ⟨?_, ?_⟩
  · intro hr
    subst hr
    simp [getLogList, h]
  · intro hne hid
    cases rows with
    | nil => exact absurd rfl hne
    | cons first rest =>
      simp [getLogList, h, hid, foldl_logs, Function.comp_def]

/-- Claim C9, witness: a store holding the rows with ids 1 to 100 gives the cursors
"1" and "100" and a hundred logs. -/
theorem getLogList_result_witness :
    (getLogList (fun _ _ => "")
        ⟨fun _ => .ok ((List.range' 1 100).map fun i => .ok ⟨i, ⟨0⟩, 0, "", ⟨0⟩⟩),
          fun _ => .noRows⟩
        "" ⟨"id", "asc", 100⟩ []).1.FromCursor = "1"
    ∧ (getLogList (fun _ _ => "")
        ⟨fun _ => .ok ((List.range' 1 100).map fun i => .ok ⟨i, ⟨0⟩, 0, "", ⟨0⟩⟩),
          fun _ => .noRows⟩
        "" ⟨"id", "asc", 100⟩ []).1.ToCursor = "100"
    ∧ (getLogList (fun _ _ => "")
        ⟨fun _ => .ok ((List.range' 1 100).map fun i => .ok ⟨i, ⟨0⟩, 0, "", ⟨0⟩⟩),
          fun _ => .noRows⟩
        "" ⟨"id", "asc", 100⟩ []).1.Logs.length = 100 := by
  have h := (getLogList_result (fun _ _ => "")
    ⟨fun _ => .ok ((List.range' 1 100).map fun i => .ok ⟨i, ⟨0⟩, 0, "", ⟨0⟩⟩),
      fun _ => .noRows⟩
    "" ⟨"id", "asc", 100⟩ [] ((List.range' 1 100).map fun i => ⟨i, ⟨0⟩, 0, "", ⟨0⟩⟩)
    (by decide)).2 (by decide) rfl
  refine ⟨?_, ?_, ?_⟩
  · rw [h.2.1]; decide
  · rw [h.2.2.1]; decide
  · rw [h.2.2.2.2]; decide

/-- The rounding at known `float64` values: 1/10 is 0x1999999999999A * 2^(-56),
1/3 is 0x15555555555555 * 2^(-54), and 2^63 - 1 converts to 2^63. -/
theorem float64_examples :
    float64Div 1 10 = ⟨0x1999999999999A, -56⟩
    ∧ float64Div 1 3 = ⟨0x15555555555555, -54⟩
    ∧ float64Div 3 1 = ⟨3 * 2 ^ 51, -51⟩
    ∧ float64OfNat (2 ^ 63 - 1) = 2 ^ 63
    ∧ float64OfNat (2 ^ 53 + 3) = 2 ^ 53 + 4 := by
  decide

theorem log2Aux_spec (fuel n : Nat) (hn : n ≤ fuel) (hpos : 0 < n) :
    2 ^ log2Aux fuel n ≤ n ∧ n < 2 ^ (log2Aux fuel n + 1) := by
  induction fuel generalizing n with
  | zero => omega
  | succ fuel ih =>
    unfold log2Aux
    by_cases h2 : 2 ≤ n
    · rw [if_pos h2]
      have hhalf := ih (n / 2) (by omega) (by omega)
      rw [pow_succ, pow_succ]
      omega
    · rw [if_neg h2]
      have : n = 1 := by omega
      subst this
      simp

theorem log2Floor_spec (n : Nat) (hpos : 0 < n) :
    2 ^ log2Floor n ≤ n ∧ n < 2 ^ (log2Floor n + 1) :=
  log2Aux_spec n n (le_refl n) hpos

theorem roundHalfEven_cases (n d : Nat) :
    (roundHalfEven n d = n / d ∧ 2 * (n % d) ≤ d)
      ∨ (roundHalfEven n d = n / d + 1 ∧ d ≤ 2 * (n % d)) := by
  unfold roundHalfEven
  simp only
  split_ifs <;> omega

theorem ceilDiv_bounds (a b : Nat) (hb : 0 < b) (ha : 0 < a) :
    a ≤ b * ((a + b - 1) / b) ∧ b * ((a + b - 1) / b - 1) < a ∧ 1 ≤ (a + b - 1) / b := by
  have h1 := Nat.div_add_mod (a + b - 1) b
  have h2 := Nat.mod_lt (a + b - 1) hb
  have h3 : 1 ≤ (a + b - 1) / b := by
    rw [Nat.le_div_iff_mul_le hb]; omega
  refine ⟨by omega, ?_, h3⟩
  have h4 : b * ((a + b - 1) / b - 1) = b * ((a + b - 1) / b) - b := by
    rw [Nat.mul_sub, Nat.mul_one]
  omega

theorem roundedCeil_eq (a b t : Nat) (ha : 0 < a) (ha53 : a < 2 ^ 53) (hb : 0 < b)
    (hnorm : 2 ^ 52 * b ≤ a * 2 ^ t) :
    (roundHalfEven (a * 2 ^ t) b + 2 ^ t - 1) / 2 ^ t = (a + b - 1) / b := by
  obtain ⟨hk1, hk2, hk3⟩ := ceilDiv_bounds a b hb ha
  generalize (a + b - 1) / b = k at hk1 hk2 hk3 ⊢
  have hTpos : 0 < 2 ^ t := Nat.pow_pos (by norm_num)
  generalize 2 ^ t = T at hnorm hTpos ⊢
  have hdm := Nat.div_add_mod (a * T) b
  have hr := Nat.mod_lt (a * T) hb
  have hcases := roundHalfEven_cases (a * T) b
  generalize roundHalfEven (a * T) b = m at hcases ⊢
  generalize (a * T) / b = q at hdm hcases
  generalize (a * T) % b = r at hdm hr hcases
  -- b < 2 * T
  have hb2 : b < 2 * T := by
    by_contra hcon
    have h1 : 2 * T ≤ b := by omega
    have h2 : 2 ^ 52 * (2 * T) ≤ 2 ^ 52 * b := Nat.mul_le_mul_left _ h1
    have h3 : a * T < 2 ^ 53 * T := Nat.mul_lt_mul_of_pos_right ha53 hTpos
    omega
  -- upper bound
  have hNk : a * T ≤ b * k * T := Nat.mul_le_mul_right T hk1
  have hup : m ≤ k * T := by
    by_contra hcon
    have hq : k * T ≤ q := by omega
    have h1 : b * (k * T) ≤ b * q := Nat.mul_le_mul_left b hq
    have h2 : b * (k * T) = b * k * T := by ring
    rcases hcases with ⟨hm, _⟩ | ⟨hm, hrr⟩
    · have hq2 : k * T + 1 ≤ q := by omega
      have h3 : b * (k * T + 1) ≤ b * q := Nat.mul_le_mul_left b hq2
      have h4 : b * (k * T + 1) = b * k * T + b := by ring
      omega
    · have hrpos : 0 < r := by omega
      omega
  -- lower bound
  obtain ⟨j, rfl⟩ : ∃ j, k = j + 1 := ⟨k - 1, by omega⟩
  simp only [Nat.add_sub_cancel] at hk2
  have hNj : (b * j + 1) * T ≤ a * T := Nat.mul_le_mul_right T hk2
  have hNj2 : (b * j + 1) * T = b * (j * T) + T := by ring
  have hlo : j * T < m := by
    by_contra hcon
    have hmle : m ≤ j * T := by omega
    rcases hcases with ⟨hm, hrr⟩ | ⟨hm, hrr⟩
    · have hq : q ≤ j * T := by omega
      have h1 : b * q ≤ b * (j * T) := Nat.mul_le_mul_left b hq
      omega
    · have hq : q + 1 ≤ j * T := by omega
      have h1 : b * (q + 1) ≤ b * (j * T) := Nat.mul_le_mul_left b hq
      have h2 : b * (q + 1) = b * q + b := by ring
      omega
  apply Nat.div_eq_of_lt_le
  · have : (j + 1) * T = j * T + T := by ring
    omega
  · have : (j + 1 + 1) * T = j * T + T + T := by ring
    have : (j + 1) * T = j * T + T := by ring
    omega

theorem float64Div_ceil (a b : Nat) (ha : 0 < a) (ha53 : a < 2 ^ 53) (hb : 0 < b) :
    (float64Div a b).ceil = (a + b - 1) / b := by
  obtain ⟨hla1, hla2⟩ := log2Floor_spec a ha
  obtain ⟨hlb1, hlb2⟩ := log2Floor_spec b hb
  have hla : log2Floor a ≤ 52 := by
    by_contra hcon
    have h1 : 2 ^ 53 ≤ 2 ^ log2Floor a := Nat.pow_le_pow_right (by norm_num) (by omega)
    omega
  unfold float64Div Dyadic.ceil
  simp only [Nat.ne_of_gt ha, if_false]
  generalize log2Floor a = la at hla1 hla2 hla
  generalize log2Floor b = lb at hlb1 hlb2
  by_cases hc : b * 2 ^ la ≤ a * 2 ^ lb
  · rw [if_pos hc]
    have h1 : (-((la : Int) - lb - 52)).toNat = 52 + lb - la := by omega
    have h2 : ((la : Int) - lb - 52).toNat = 0 := by omega
    rw [h1, h2, pow_zero, Nat.mul_one, Nat.mul_one]
    apply roundedCeil_eq a b _ ha ha53 hb
    have h3 : b * 2 ^ la * 2 ^ (52 - la) ≤ a * 2 ^ lb * 2 ^ (52 - la) :=
      Nat.mul_le_mul_right _ hc
    have h4 : b * 2 ^ la * 2 ^ (52 - la) = 2 ^ 52 * b := by
      rw [Nat.mul_assoc, ← pow_add, Nat.mul_comm]
      congr 2; omega
    have h5 : a * 2 ^ lb * 2 ^ (52 - la) = a * 2 ^ (52 + lb - la) := by
      rw [Nat.mul_assoc, ← pow_add]
      congr 2; omega
    omega
  · rw [if_neg hc]
    have h1 : (-((la : Int) - lb - 1 - 52)).toNat = 53 + lb - la := by omega
    have h2 : ((la : Int) - lb - 1 - 52).toNat = 0 := by omega
    rw [h1, h2, pow_zero, Nat.mul_one, Nat.mul_one]
    apply roundedCeil_eq a b _ ha ha53 hb
    have h3 : 2 ^ la * 2 ^ (53 + lb - la) ≤ a * 2 ^ (53 + lb - la) :=
      Nat.mul_le_mul_right _ hla1
    have h4 : 2 ^ la * 2 ^ (53 + lb - la) = 2 ^ 52 * 2 ^ (lb + 1) := by
      rw [← pow_add, ← pow_add]
      congr 1; omega
    have h5 : 2 ^ 52 * b ≤ 2 ^ 52 * 2 ^ (lb + 1) := Nat.mul_le_mul_left _ (by omega)
    omega

theorem float64OfNat_small (n : Nat) (h : n < 2 ^ 53) : float64OfNat n = n := by
  unfold float64OfNat
  rw [if_pos h]

theorem float64OfNat_large (n : Nat) (h : 2 ^ 53 ≤ n) : 2 ^ 53 ≤ float64OfNat n := by
  unfold float64OfNat
  rw [if_neg (by omega)]
  simp only
  obtain ⟨h1, h2⟩ := log2Floor_spec n (by have : 0 < 2 ^ 53 := by norm_num
                                          omega)
  have hl : 53 ≤ log2Floor n := by
    by_contra hcon
    have : 2 ^ (log2Floor n + 1) ≤ 2 ^ 53 := Nat.pow_le_pow_right (by norm_num) (by omega)
    omega
  generalize log2Floor n = l at h1 h2 hl
  obtain ⟨e, rfl⟩ : ∃ e, l = e + 52 := ⟨l - 52, by omega⟩
  simp only [Nat.add_sub_cancel]
  have hq : 2 ^ 52 ≤ n / 2 ^ e := by
    rw [Nat.le_div_iff_mul_le (Nat.pow_pos (by norm_num))]
    rw [← pow_add, Nat.add_comm]
    exact h1
  have hm : n / 2 ^ e ≤ roundHalfEven n (2 ^ e) := by
    rcases roundHalfEven_cases n (2 ^ e) with ⟨h, _⟩ | ⟨h, _⟩ <;> omega
  have he : 2 ≤ 2 ^ e := by
    have : 2 ^ 1 ≤ 2 ^ e := Nat.pow_le_pow_right (by norm_num) (by omega)
    simpa using this
  calc 2 ^ 53 = 2 ^ 52 * 2 := by norm_num
    _ ≤ roundHalfEven n (2 ^ e) * 2 ^ e := Nat.mul_le_mul (le_trans hq hm) he

theorem float64_ceil_quotient (a b : Nat) (ha53 : a < 2 ^ 53) (hb : 0 < b) :
    (float64Div (float64OfNat a) (float64OfNat b)).ceil = (a + b - 1) / b := by
  rw [float64OfNat_small a ha53]
  rcases Nat.eq_zero_or_pos a with rfl | ha
  · have h0 : (0 + b - 1) / b = 0 := Nat.div_eq_of_lt (by omega)
    rw [h0]
    simp [float64Div, Dyadic.ceil]
  · by_cases hb53 : b < 2 ^ 53
    · rw [float64OfNat_small b hb53]
      exact float64Div_ceil a b ha ha53 hb
    · have hb' := float64OfNat_large b (by omega)
      rw [float64Div_ceil a _ ha ha53 (by omega)]
      have h1 : (a + float64OfNat b - 1) / float64OfNat b = 1 :=
        Nat.div_eq_of_lt_le (by omega) (by omega)
      have h2 : (a + b - 1) / b = 1 := Nat.div_eq_of_lt_le (by omega) (by omega)
      rw [h1, h2]

theorem natCeilDiv_eq_ceil (a b : Nat) (hb : 0 < b) :
    (((a + b - 1) / b : Nat) : Int) = ⌈(a : ℚ) / (b : ℚ)⌉ := by
  symm
  rw [Int.ceil_eq_iff]
  have hbq : (0 : ℚ) < (b : ℚ) := by exact_mod_cast hb
  rcases Nat.eq_zero_or_pos a with rfl | ha
  · have h0 : (0 + b - 1) / b = 0 := Nat.div_eq_of_lt (by omega)
    rw [h0]; simp
  · obtain ⟨hk1, hk2, hk3⟩ := ceilDiv_bounds a b hb ha
    generalize (a + b - 1) / b = k at hk1 hk2 hk3
    obtain ⟨j, rfl⟩ : ∃ j, k = j + 1 := ⟨k - 1, by omega⟩
    simp only [Nat.add_sub_cancel] at hk2
    constructor
    · rw [lt_div_iff₀ hbq]
      have : ((b * j : Nat) : ℚ) < (a : ℚ) := by exact_mod_cast hk2
      push_cast at this ⊢
      linarith
    · rw [div_le_iff₀ hbq]
      have : ((a : Nat) : ℚ) ≤ ((b * (j + 1) : Nat) : ℚ) := by exact_mod_cast hk1
      push_cast at this ⊢
      linarith

theorem pageNumber_eq_ceil (s : SortSpec) (p : Int) (hp0 : 0 ≤ p) (hp : p < 2 ^ 53)
    (hL : 1 ≤ s.Limit) :
    pageNumber p s
      = some (if s.Direction = "asc" then ⌈(p : ℚ) / (s.Limit : ℚ)⌉ + 1
          else ⌈(p : ℚ) / (s.Limit : ℚ)⌉) := by
  obtain ⟨a, rfl⟩ : ∃ a : Nat, p = a := ⟨p.toNat, by omega⟩
  obtain ⟨b, hb⟩ : ∃ b : Nat, s.Limit = b := ⟨s.Limit.toNat, by omega⟩
  have ha53 : a < 2 ^ 53 := by exact_mod_cast hp
  have hbpos : 0 < b := by omega
  have hceil := natCeilDiv_eq_ceil a b hbpos
  have hle : (a + b - 1) / b ≤ a := by
    rcases Nat.eq_zero_or_pos a with rfl | ha
    · rw [Nat.div_eq_of_lt (show 0 + b - 1 < b by omega)]
    · apply Nat.div_le_of_le_mul
      obtain ⟨a', rfl⟩ : ∃ a', a = a' + 1 := ⟨a - 1, by omega⟩
      obtain ⟨b', rfl⟩ : ∃ b', b = b' + 1 := ⟨b - 1, by omega⟩
      have : (b' + 1) * (a' + 1) = b' * a' + b' + a' + 1 := by ring
      omega
  have hq := float64_ceil_quotient a b ha53 hbpos
  unfold pageNumber
  rw [hb]
  have hne : ¬ ((b : Int) = 0) := by omega
  have hsign : decide ((a : Int) < 0) = decide ((b : Int) < 0) := by
    have h1 : ¬ ((a : Int) < 0) := by omega
    have h2 : ¬ ((b : Int) < 0) := by omega
    simp [h1, h2]
  simp only [Int.natAbs_ofNat, if_neg hne, if_pos hsign, hq]
  have hin : inInt64 (((a + b - 1) / b : Nat) : Int) := by
    unfold inInt64
    have : (((a + b - 1) / b : Nat) : Int) < 2 ^ 53 := by
      have : (a + b - 1) / b < 2 ^ 53 := by omega
      exact_mod_cast this
    constructor <;> omega
  rw [if_pos hin, Int.cast_natCast, Int.cast_natCast, ← hceil]
  by_cases hd : s.Direction = "asc"
  · rw [if_pos hd, if_pos hd, wrapInt64_of_inInt64]
    unfold inInt64
    have : (((a + b - 1) / b : Nat) : Int) < 2 ^ 53 := by
      have : (a + b - 1) / b < 2 ^ 53 := by omega
      exact_mod_cast this
    constructor <;> omega
  · rw [if_neg hd, if_neg hd]

/-- Claim C8, amended. For a position `0 ≤ p < 2 ^ 53` and a limit `L ≥ 1` the
page number is the ceiling of the exact quotient `p / L`, plus one when the
direction is "asc"; so position 0 ascending gives page 1 and a position in
`((k - 1) * L, k * L]` ascending gives page `k + 1`. -/
theorem pageNumber_formula (s : SortSpec) (p : Int) (hp0 : 0 ≤ p) (hp : p < 2 ^ 53)
    (hL : 1 ≤ s.Limit) :
    pageNumber p s
        = some (if s.Direction = "asc" then ⌈(p : ℚ) / (s.Limit : ℚ)⌉ + 1
            else ⌈(p : ℚ) / (s.Limit : ℚ)⌉)
    ∧ (s.Direction = "asc" → p = 0 → pageNumber p s = some 1)
    ∧ (∀ k : Int, s.Direction = "asc" → (k - 1) * s.Limit < p → p ≤ k * s.Limit
        → pageNumber p s = some (k + 1)) := by
  have h := pageNumber_eq_ceil s p hp0 hp hL
  have hLq : (0 : ℚ) < (s.Limit : ℚ) := by exact_mod_cast (by omega : (0 : Int) < s.Limit)
  refine ⟨h, ?_, ?_⟩
  · intro hd h0
    rw [h, if_pos hd, h0]
    simp
  · intro k hd hlo hhi
    rw [h, if_pos hd]
    have hc : ⌈(p : ℚ) / (s.Limit : ℚ)⌉ = k := by
      rw [Int.ceil_eq_iff]
      constructor
      · rw [lt_div_iff₀ hLq]
        have : (((k - 1) * s.Limit : Int) : ℚ) < (p : ℚ) := by exact_mod_cast hlo
        push_cast at this ⊢
        linarith
      · rw [div_le_iff₀ hLq]
        have : ((p : Int) : ℚ) ≤ ((k * s.Limit : Int) : ℚ) := by exact_mod_cast hhi
        push_cast at this ⊢
        linarith
    rw [hc]

/-- Claim C8, witness: position 101 with limit 100, ascending, is on page 3. -/
theorem pageNumber_formula_witness : pageNumber 101 ⟨"id", "asc", 100⟩ = some 3 :=
  (pageNumber_formula ⟨"id", "asc", 100⟩ 101 (by decide) (by decide) (by decide)).2.2 2 rfl
    (by decide) (by decide)

/-- Claim C8, counterexample: for position 2^53 + 1 and limit 2^53 the conversion
to `float64` rounds the position to 2^53, the quotient is 1 and so is the
page number, while the ceiling of the exact quotient is 2. -/
theorem pageNumber_float_rounding :
    float64OfNat 9007199254740993 = 9007199254740992
    ∧ pageNumber 9007199254740993 ⟨"id", "desc", 9007199254740992⟩ = some 1
    ∧ ⌈((9007199254740993 : Int) : ℚ) / ((9007199254740992 : Int) : ℚ)⌉ = 2 := by
  refine ⟨by decide, by decide, ?_⟩
  rw [Int.ceil_eq_iff]
  constructor <;> norm_num

theorem rowAtOffset_tableIds (n : Nat) (o : Nat) (h : o < n) :
    rowAtOffset (tableIds n) (o : Int) = some (o + 1) := by
  unfold rowAtOffset tableIds
  rw [if_neg (by omega), Int.toNat_ofNat, List.get?_eq_getElem?, List.getElem?_range' 1 1 h]
  simp [Nat.add_comm]

theorem cursorPosition_tableIds (n c : Nat) :
    cursorPosition (tableIds n) c = min (c - 1) n := by
  unfold cursorPosition tableIds
  induction n with
  | zero => simp
  | succ n ih =>
    rw [List.range'_1_concat, List.filter_append, List.length_append, ih]
    by_cases h : 1 + n < c
    · simp [h]; omega
    · simp [h]; omega

/-- Claim C10, amended. On a table with ids 1 to `n`, `n ≤ 2 ^ 53`, with limit
`L ≥ 1` and a page `k ≥ 1` with `k * L ≤ n`: for a descending sort by id the
page number reported for the cursor of page `k` is `k - 1`; for an ascending
sort it is `k` when `k ≥ 2` and `L ≥ 2`. -/
theorem pageOfCursorForPage_eq (n : Nat) (k L : Int) (hn : n ≤ 2 ^ 53) (hL : 1 ≤ L)
    (hk : 1 ≤ k) (hkl : k * L ≤ n) :
    pageOfCursorForPage n k ⟨"id", "desc", L⟩ = some (k - 1)
    ∧ (2 ≤ k → 2 ≤ L → pageOfCursorForPage n k ⟨"id", "asc", L⟩ = some k) := by
  obtain ⟨j, rfl⟩ : ∃ j : Nat, k = j + 1 := ⟨(k - 1).toNat, by omega⟩
  obtain ⟨l, rfl⟩ : ∃ l : Nat, L = l := ⟨L.toNat, by omega⟩
  have hl : 1 ≤ l := by exact_mod_cast hL
  have hkl' : (j + 1) * l ≤ n := by exact_mod_cast hkl
  have hexp : (j + 1) * l = j * l + l := by ring
  have hjl : j ≤ j * l := Nat.le_mul_of_pos_right j hl
  have hcast : ((j : Int) + 1 - 1) * (l : Int) = ((j * l : Nat) : Int) := by push_cast; ring
  have h53 : (2 : Int) ^ 53 = ((2 ^ 53 : Nat) : Int) := by norm_num
  have hr1 : inInt64 ((j : Int) + 1 - 1) := by
    unfold inInt64; constructor <;> omega
  have hr2 : inInt64 (((j * l : Nat) : Int)) := by
    unfold inInt64; constructor <;> omega
  have hlq : (0 : ℚ) < (l : ℚ) := by exact_mod_cast hl
  refine ⟨?_, ?_⟩
  · have hoff : GetCursorOffset ((j : Int) + 1) ⟨"id", "desc", (l : Int)⟩ = ((j * l : Nat) : Int) := by
      simp only [GetCursorOffset]
      rw [wrapInt64_of_inInt64 _ hr1, hcast, wrapInt64_of_inInt64 _ hr2]
      simp
    unfold pageOfCursorForPage
    rw [hoff, rowAtOffset_tableIds n (j * l) (by omega)]
    simp only
    rw [cursorPosition_tableIds, Nat.add_sub_cancel, Nat.min_eq_left (by omega)]
    rw [pageNumber_eq_ceil _ _ (by omega) (by omega) (by simpa using hL)]
    simp only [if_neg (show ¬ ("desc" = "asc") by decide)]
    congr 1
    rw [Int.ceil_eq_iff]
    push_cast
    constructor
    · rw [lt_div_iff₀ hlq]; nlinarith
    · rw [div_le_iff₀ hlq]; nlinarith
  · intro hk2 hL2
    have hj1 : 1 ≤ j := by omega
    have hl2 : 2 ≤ l := by exact_mod_cast hL2
    have hjl1 : 1 ≤ j * l := by nlinarith
    have hr3 : inInt64 (((j * l : Nat) : Int) - 1) := by
      unfold inInt64; constructor <;> omega
    have hoff : GetCursorOffset ((j : Int) + 1) ⟨"id", "asc", (l : Int)⟩
        = ((j * l - 1 : Nat) : Int) := by
      simp only [GetCursorOffset]
      rw [wrapInt64_of_inInt64 _ hr1, hcast, wrapInt64_of_inInt64 _ hr2, if_pos trivial,
        wrapInt64_of_inInt64 _ hr3]
      omega
    unfold pageOfCursorForPage
    rw [hoff, rowAtOffset_tableIds n (j * l - 1) (by omega)]
    simp only
    rw [cursorPosition_tableIds, Nat.add_sub_cancel, Nat.min_eq_left (by omega)]
    rw [pageNumber_eq_ceil _ _ (by omega) (by omega) (by simpa using hL)]
    simp only [if_pos]
    congr 1
    have hc : ⌈(((j * l - 1 : Nat) : Int) : ℚ) / ((l : Int) : ℚ)⌉ = (j : Int) := by
      rw [Int.ceil_eq_iff]
      have hsub : (((j * l - 1 : Nat) : Int) : ℚ) = (j : ℚ) * (l : ℚ) - 1 := by
        rw [Int.cast_natCast, Nat.cast_sub hjl1]; push_cast; ring
      have hl2q : (2 : ℚ) ≤ (l : ℚ) := by exact_mod_cast hl2
      rw [hsub]
      push_cast
      constructor
      · rw [lt_div_iff₀ hlq]; nlinarith
      · rw [div_le_iff₀ hlq]; nlinarith
    rw [hc]

/-- Claim C10, witness: the second page of a table with ids 1 to 250 and limit
100 is reported as page 1 when descending and as page 2 when ascending. -/
theorem pageOfCursorForPage_eq_witness :
    pageOfCursorForPage 250 2 ⟨"id", "desc", 100⟩ = some (2 - 1)
    ∧ pageOfCursorForPage 250 2 ⟨"id", "asc", 100⟩ = some 2 :=
  ⟨(pageOfCursorForPage_eq 250 2 100 (by decide) (by decide) (by decide) (by decide)).1,
    (pageOfCursorForPage_eq 250 2 100 (by decide) (by decide) (by decide) (by decide)).2
      (by decide) (by decide)⟩

theorem pageOfCursorForPage_of_offset (n o : Nat) (page : Int) (sort : SortSpec)
    (hoff : GetCursorOffset page sort = (o : Int)) (h : o < n) :
    pageOfCursorForPage n page sort = pageNumber (o : Int) sort := by
  unfold pageOfCursorForPage
  rw [hoff, rowAtOffset_tableIds n o h]
  simp only
  rw [cursorPosition_tableIds, Nat.add_sub_cancel, Nat.min_eq_left (by omega)]

set_option maxRecDepth 100000 in
/-- Claim C10, counterexample. On a table with ids 1 to 250 and limit 100 the
cursor of descending page 1 (offset 0, id 1, position 0) is reported as page 0
and that of descending page 2 as page 1; ascending page 1 asks for offset -1,
where there is no row; with limit 1 on three rows ascending page 2 is reported
as page 1; and on a table of 7 * (2^53 + 1) rows with limit 2^53 + 1 the
position of ascending page 7 is rounded by the conversion to `float64` and the
page is reported as 8. -/
theorem pageOfCursorForPage_not_round_trip :
    GetCursorOffset 1 ⟨"id", "desc", 100⟩ = 0
    ∧ pageOfCursorForPage 250 1 ⟨"id", "desc", 100⟩ = some 0
    ∧ pageOfCursorForPage 250 2 ⟨"id", "desc", 100⟩ = some 1
    ∧ GetCursorOffset 1 ⟨"id", "asc", 100⟩ = -1
    ∧ pageOfCursorForPage 250 1 ⟨"id", "asc", 100⟩ = none
    ∧ pageOfCursorForPage 3 2 ⟨"id", "asc", 1⟩ = some 1
    ∧ pageOfCursorForPage 63050394783186951 7 ⟨"id", "asc", 9007199254740993⟩ = some 8 := by
  refine ⟨by decide, by decide, by decide, by decide, by decide, by decide, ?_⟩
  exact (pageOfCursorForPage_of_offset 63050394783186951 54043195528445957 7
    ⟨"id", "asc", 9007199254740993⟩ (by decide) (by norm_num)).trans (by decide)

end LogViewer
